import Mathlib

/-!
Verification of the passwdgen password utility.

The repository source available here is `passwdgen/cmdline.py`, the command-line
layer.  The core routines it calls (`calculate_entropy`, `generate_password_chars`,
`generate_password_words`, `secure_random_quality`, and the constants module) are
part of this repository but their files are not present; where a definition below
embeds such a routine, its doc comment starts with `Modelled from the spec:` and
says which routine is missing.  Definitions taken from `cmdline.py` itself cite it.

Strings from the Python code are modelled as `List Char`; floating-point entropy
values are modelled as real numbers; the random source is modelled as an oracle
`pick : Nat -> Nat` supplying one draw per index, reduced into range by `%`.
-/

/-- The 26 ASCII lowercase letters, `string.ascii_lowercase` (codes 97..122). -/
def lowercaseChars : List Char := (List.range 26).map (fun i => Char.ofNat (97 + i))

/-- The 26 ASCII uppercase letters, `string.ascii_uppercase` (codes 65..90). -/
def uppercaseChars : List Char := (List.range 26).map (fun i => Char.ofNat (65 + i))

/-- The 10 ASCII digits, `string.digits` (codes 48..57). -/
def digitChars : List Char := (List.range 10).map (fun i => Char.ofNat (48 + i))

/-- The 32 ASCII punctuation/symbol characters, `string.punctuation`
(codes 33..47, 58..64, 91..96, 123..126). -/
def punctuationChars : List Char :=
  ((List.range 15).map (fun i => Char.ofNat (33 + i))) ++
  ((List.range 7).map (fun i => Char.ofNat (58 + i))) ++
  ((List.range 6).map (fun i => Char.ofNat (91 + i))) ++
  ((List.range 4).map (fun i => Char.ofNat (123 + i)))

/-- Modelled from the spec: the built-in character-class hypotheses of the
missing constants module (lowercase, uppercase, digits, punctuation, and
additive unions such as lowercase+digits). -/
inductive Charset
  | lower
  | upper
  | digits
  | special
  | lowerDigits
  | upperDigits
  | letters
  | lettersDigits
  | all
deriving DecidableEq, Repr

/-- Modelled from the spec: the alphabet (member set) of each built-in
character class, the shared table consumed by estimation and generation. -/
def charsetMembers : Charset → List Char
  | .lower => lowercaseChars
  | .upper => uppercaseChars
  | .digits => digitChars
  | .special => punctuationChars
  | .lowerDigits => lowercaseChars ++ digitChars
  | .upperDigits => uppercaseChars ++ digitChars
  | .letters => lowercaseChars ++ uppercaseChars
  | .lettersDigits => lowercaseChars ++ uppercaseChars ++ digitChars
  | .all => lowercaseChars ++ uppercaseChars ++ digitChars ++ punctuationChars

/-- The fixed display/evaluation order of the character-class hypotheses,
as iterated by `show_password_entropy` (cmdline.py line 19). -/
def charsetList : List Charset :=
  [.digits, .lower, .upper, .special, .lowerDigits, .upperDigits,
   .letters, .lettersDigits, .all]

/-- A hypothesis identifier in the entropy report: a character class or the
dictionary hypothesis. -/
inductive HypId
  | charset (c : Charset)
  | dictionary
deriving DecidableEq, Repr

/-- Modelled from the spec: membership consistency — every character of the
password belongs to the class's member set. -/
def charsetIncluded (passwd : List Char) (c : Charset) : Bool :=
  passwd.all (fun ch => (charsetMembers c).contains ch)

/-- Modelled from the spec: the fixed word separator used by the dictionary
hypothesis and by word-mode generation (the default `SEP_DASH`). -/
def PASSWORD_SEPARATOR : Char := Char.ofNat 45

/-- Split a character list on a single separator character; always returns at
least one (possibly empty) token. -/
def splitSep (sep : Char) : List Char → List (List Char)
  | [] => [[]]
  | ch :: rest =>
    match splitSep sep rest with
    | [] => [[]]
    | t :: ts => if ch = sep then [] :: t :: ts else (ch :: t) :: ts

/-- Join a list of tokens with a single separator character between them. -/
def joinSep (sep : Char) (ws : List (List Char)) : List Char :=
  (ws.intersperse [sep]).flatten

/-- Modelled from the spec: the password decomposes entirely into
separator-delimited dictionary words. -/
def dict_decomposes (passwd : List Char) (ws : List (List Char)) : Bool :=
  (splitSep PASSWORD_SEPARATOR passwd).all (fun t => ws.contains t)

/-- The per-hypothesis entropy value in bits for an alphabet of size `A` and a
password of length `L`: `L * log2 A`. -/
noncomputable def charset_entropy (A L : ℕ) : ℝ :=
  (L : ℝ) * Real.logb 2 (A : ℝ)

/-- Modelled from the spec: `calculate_entropy` of the missing utils module,
called by `show_password_entropy` (cmdline.py line 15).  It reports, for each
built-in character class covering every character of the password, the entropy
`L * log2 A`; when a dictionary is supplied and the password decomposes
entirely into separator-delimited dictionary words, it also reports the
dictionary hypothesis with entropy `(number of tokens) * log2 N`. -/
noncomputable def calculate_entropy (passwd : List Char)
    (dict_set : Option (List (List Char))) : List (HypId × ℝ) :=
  ((charsetList.filter (fun c => charsetIncluded passwd c)).map
    (fun c => (HypId.charset c, charset_entropy ((charsetMembers c).length) passwd.length)))
  ++ (match dict_set with
      | none => []
      | some ws =>
        if dict_decomposes passwd ws then
          [(HypId.dictionary,
            ((splitSep PASSWORD_SEPARATOR passwd).length : ℝ) * Real.logb 2 (ws.length : ℝ))]
        else [])

/-- Modelled from the spec: the default character-password length of the
missing constants module (its exact value is not visible in src). -/
def DEFAULT_CHAR_PASSWORD_LENGTH : ℕ := 12

/-- Modelled from the spec: the default word-password word count of the
missing constants module (its exact value is not visible in src). -/
def DEFAULT_WORD_PASSWORD_WORDS : ℕ := 4

/-- Modelled from the spec: the required unit count for a minimum entropy
target `E` over an alphabet of size `A`, `ceil(E / log2 A)`, realised
integer-safely as the least `L` with `A ^ L ≥ 2 ^ E` (that is,
`Nat.clog A (2 ^ E)`); the equality with the real ceiling is proved below. -/
def required_units (E A : ℕ) : ℕ := Nat.clog A (2 ^ E)

/-- The generation error taxonomy of the spec. -/
inductive GenError
  | invalidRequest
deriving DecidableEq, Repr

/-- Draw `n` characters from `alphabet` using the random oracle `pick`,
reducing each draw into range by `%`. -/
def pickChars (alphabet : List Char) (n : ℕ) (pick : ℕ → ℕ) : List Char :=
  (List.range n).map (fun i => alphabet.getD (pick i % alphabet.length) (Char.ofNat 32))

/-- Draw `n` words from `ws` using the random oracle `pick`, reducing each
draw into range by `%`. -/
def pickWords (ws : List (List Char)) (n : ℕ) (pick : ℕ → ℕ) : List (List Char) :=
  (List.range n).map (fun i => ws.getD (pick i % ws.length) [])

/-- Modelled from the spec: `generate_password_chars` of the missing generator
module (called at cmdline.py line 199).  Given the resolved alphabet, an
optional explicit length, an optional minimum entropy and the random oracle,
it returns the password together with the number of random draws consumed, or
`invalidRequest` (with zero draws consumed) when the alphabet is empty or a
minimum entropy target is to be sized over an alphabet of size 1. -/
def generate_password_chars (alphabet : List Char) (length min_entropy : Option ℕ)
    (pick : ℕ → ℕ) : Except GenError (List Char) × ℕ :=
  if alphabet.length = 0 then (Except.error GenError.invalidRequest, 0)
  else
    match length with
    | some L => (Except.ok (pickChars alphabet L pick), L)
    | none =>
      match min_entropy with
      | some E =>
        if alphabet.length = 1 then (Except.error GenError.invalidRequest, 0)
        else
          (Except.ok (pickChars alphabet (required_units E alphabet.length) pick),
           required_units E alphabet.length)
      | none =>
        (Except.ok (pickChars alphabet DEFAULT_CHAR_PASSWORD_LENGTH pick),
         DEFAULT_CHAR_PASSWORD_LENGTH)

/-- Modelled from the spec: `generate_password_words` of the missing generator
module (called at cmdline.py line 192).  Given the dictionary, the separator,
an optional explicit word count, an optional minimum entropy and the random
oracle, it returns the words joined by the separator together with the number
of random draws consumed, or `invalidRequest` (with zero draws consumed) when
the dictionary is empty or a minimum entropy target is to be sized over a
dictionary of size 1. -/
def generate_password_words (ws : List (List Char)) (sep : Char)
    (word_count min_entropy : Option ℕ) (pick : ℕ → ℕ) :
    Except GenError (List Char) × ℕ :=
  if ws.length = 0 then (Except.error GenError.invalidRequest, 0)
  else
    match word_count with
    | some W => (Except.ok (joinSep sep (pickWords ws W pick)), W)
    | none =>
      match min_entropy with
      | some E =>
        if ws.length = 1 then (Except.error GenError.invalidRequest, 0)
        else
          (Except.ok (joinSep sep (pickWords ws (required_units E ws.length) pick)),
           required_units E ws.length)
      | none =>
        (Except.ok (joinSep sep (pickWords ws DEFAULT_WORD_PASSWORD_WORDS pick)),
         DEFAULT_WORD_PASSWORD_WORDS)

/-- The newline character. -/
def newlineChar : Char := Char.ofNat 10

/-- From cmdline.py lines 168-171: after reading piped stdin, strip off the
single trailing newline when the input ends with one. -/
def strip_trailing (s : List Char) : List Char :=
  if s.getLast? = some newlineChar then s.dropLast else s

/-- From cmdline.py lines 162-174: the `info` command.  Returns the password
that gets read and displayed, or `none` when the command takes no action.
Only the branch where `password_file` is `None` does anything: on a tty the
prompted password is used as-is, otherwise piped stdin is read and its single
trailing newline stripped. -/
def info_command (password_file : Option (List Char)) (isatty : Bool)
    (prompted stdin_input : List Char) : Option (List Char) :=
  match password_file with
  | none => some (if isatty then prompted else strip_trailing stdin_input)
  | some _ => none

/-- The example password `abc123` of the spec, as a character list. -/
def abc123 : List Char :=
  [Char.ofNat 97, Char.ofNat 98, Char.ofNat 99, Char.ofNat 49, Char.ofNat 50, Char.ofNat 51]

/-! Helper lemmas about the entropy report. -/

lemma charset_mem_charsetList (c : Charset) : c ∈ charsetList := by
  cases c <;> decide

lemma charsetIncluded_iff (passwd : List Char) (c : Charset) :
    charsetIncluded passwd c = true ↔ ∀ ch ∈ passwd, ch ∈ charsetMembers c := by
  simp [charsetIncluded]

/-- Membership characterisation of the character-class part of the report. -/
lemma mem_calculate_entropy_charset (passwd : List Char)
    (d : Option (List (List Char))) (c : Charset) (e : ℝ) :
    (HypId.charset c, e) ∈ calculate_entropy passwd d ↔
      (charsetIncluded passwd c = true ∧
       e = charset_entropy ((charsetMembers c).length) passwd.length) := by
  unfold calculate_entropy
  rw [List.mem_append]
  constructor
  · rintro (h | h)
    · rcases List.mem_map.mp h with ⟨a, ha, heq⟩
      rcases List.mem_filter.mp ha with ⟨_, hinc⟩
      obtain ⟨h1, h2⟩ := Prod.mk.injEq .. ▸ heq
      cases HypId.charset.injEq .. ▸ h1
      exact ⟨hinc, h2.symm⟩
    · cases d with
      | none => simp at h
      | some ws =>
        by_cases hd : dict_decomposes passwd ws <;> simp [hd] at h
  · rintro ⟨hinc, rfl⟩
    exact Or.inl (List.mem_map.mpr
      ⟨c, List.mem_filter.mpr ⟨charset_mem_charsetList c, hinc⟩, rfl⟩)

/-- Membership characterisation of the dictionary part of the report. -/
lemma mem_calculate_entropy_dict (passwd : List Char) (ws : List (List Char)) (e : ℝ) :
    (HypId.dictionary, e) ∈ calculate_entropy passwd (some ws) ↔
      (dict_decomposes passwd ws = true ∧
       e = ((splitSep PASSWORD_SEPARATOR passwd).length : ℝ) *
            Real.logb 2 (ws.length : ℝ)) := by
  unfold calculate_entropy
  rw [List.mem_append]
  constructor
  · rintro (h | h)
    · rcases List.mem_map.mp h with ⟨a, _, heq⟩
      exact absurd (congrArg Prod.fst heq) (by simp)
    · by_cases hd : dict_decomposes passwd ws
      · simp only [hd, if_true, List.mem_singleton] at h
        exact ⟨hd, (Prod.mk.injEq .. ▸ h).2⟩
      · simp [hd] at h
  · rintro ⟨hd, rfl⟩
    exact Or.inr (by simp [hd])

/-! Claim theorems. -/

/-- C1: for every password and every character-class hypothesis included in the
entropy report, with alphabet size A and password length L, the reported
entropy equals L * log2 A; and in the edge case A = 1 the per-hypothesis
entropy is 0 regardless of L. -/
theorem c1_charset_entropy_formula (passwd : List Char)
    (d : Option (List (List Char))) (c : Charset) (e : ℝ)
    (h : (HypId.charset c, e) ∈ calculate_entropy passwd d) :
    e = (passwd.length : ℝ) * Real.logb 2 (((charsetMembers c).length : ℕ) : ℝ) ∧
    (∀ L : ℕ, charset_entropy 1 L = 0) := by
  have hmem := (mem_calculate_entropy_charset passwd d c e).mp h
  refine ⟨hmem.2, fun L => ?_⟩
  simp [charset_entropy]

theorem c1_charset_entropy_formula_witness :
    charset_entropy ((charsetMembers Charset.lower).length) 1 =
      ((1 : ℕ) : ℝ) * Real.logb 2 (((charsetMembers Charset.lower).length : ℕ) : ℝ) ∧
    charset_entropy 1 5 = 0 := by
  have hmem : (HypId.charset Charset.lower,
      charset_entropy ((charsetMembers Charset.lower).length) 1) ∈
      calculate_entropy [Char.ofNat 97] none :=
    (mem_calculate_entropy_charset [Char.ofNat 97] none Charset.lower _).mpr
      ⟨by decide, rfl⟩
  have h := c1_charset_entropy_formula [Char.ofNat 97] none Charset.lower _ hmem
  exact ⟨by simpa using h.1, h.2 5⟩

/-- C2: a character-class hypothesis appears in the report iff every character
of the password belongs to its alphabet; for the password `abc123` the
lowercase+digits union hypothesis is included and the pure-lowercase
hypothesis is excluded. -/
theorem c2_inclusion_iff :
    (∀ (passwd : List Char) (d : Option (List (List Char))) (c : Charset),
      (∃ e, (HypId.charset c, e) ∈ calculate_entropy passwd d) ↔
        ∀ ch ∈ passwd, ch ∈ charsetMembers c) ∧
    (∃ e, (HypId.charset Charset.lowerDigits, e) ∈ calculate_entropy abc123 none) ∧
    ¬ (∃ e, (HypId.charset Charset.lower, e) ∈ calculate_entropy abc123 none) := by
  have main : ∀ (passwd : List Char) (d : Option (List (List Char))) (c : Charset),
      (∃ e, (HypId.charset c, e) ∈ calculate_entropy passwd d) ↔
        ∀ ch ∈ passwd, ch ∈ charsetMembers c := by
    intro passwd d c
    constructor
    · rintro ⟨e, he⟩
      exact (charsetIncluded_iff passwd c).mp
        ((mem_calculate_entropy_charset passwd d c e).mp he).1
    · intro hall
      exact ⟨_, (mem_calculate_entropy_charset passwd d c _).mpr
        ⟨(charsetIncluded_iff passwd c).mpr hall, rfl⟩⟩
  refine ⟨main, (main abc123 none Charset.lowerDigits).mpr (by decide), fun hex => ?_⟩
  have := (main abc123 none Charset.lower).mp hex
  exact absurd (fun ch hch => this ch hch) (by decide)

/-- C5: the dictionary hypothesis appears in the report, with entropy
(number of separator-delimited tokens) * log2 N, iff the password decomposes
entirely into separator-delimited dictionary words; otherwise it is omitted,
and in particular it is omitted for the empty password (the dictionary
containing no empty word). -/
theorem c5_dictionary_hypothesis (passwd : List Char) (ws : List (List Char))
    (hnil : [] ∉ ws) :
    ((HypId.dictionary,
        ((splitSep PASSWORD_SEPARATOR passwd).length : ℝ) *
          Real.logb 2 (ws.length : ℝ)) ∈ calculate_entropy passwd (some ws) ↔
      dict_decomposes passwd ws = true) ∧
    (∀ e, (HypId.dictionary, e) ∈ calculate_entropy passwd (some ws) →
      dict_decomposes passwd ws = true ∧
      e = ((splitSep PASSWORD_SEPARATOR passwd).length : ℝ) *
            Real.logb 2 (ws.length : ℝ)) ∧
    (passwd = [] → ∀ e, (HypId.dictionary, e) ∉ calculate_entropy passwd (some ws)) := by
  refine ⟨?_, ?_, ?_⟩
  · constructor
    · intro h
      exact ((mem_calculate_entropy_dict passwd ws _).mp h).1
    · intro hd
      exact (mem_calculate_entropy_dict passwd ws _).mpr ⟨hd, rfl⟩
  · intro e he
    exact (mem_calculate_entropy_dict passwd ws e).mp he
  · rintro rfl e he
    have hd := ((mem_calculate_entropy_dict [] ws e).mp he).1
    have : ([] : List Char) ∈ ws := by
      simpa [dict_decomposes, splitSep] using hd
    exact hnil this

theorem c5_dictionary_hypothesis_witness :
    ((HypId.dictionary,
        ((splitSep PASSWORD_SEPARATOR [Char.ofNat 97]).length : ℝ) *
          Real.logb 2 (([[Char.ofNat 97]] : List (List Char)).length : ℝ)) ∈
        calculate_entropy [Char.ofNat 97] (some [[Char.ofNat 97]])) ∧
    (∀ e, (HypId.dictionary, e) ∉ calculate_entropy [] (some [[Char.ofNat 97]])) := by
  have h1 := c5_dictionary_hypothesis [Char.ofNat 97] [[Char.ofNat 97]] (by decide)
  have h2 := c5_dictionary_hypothesis [] [[Char.ofNat 97]] (by decide)
  exact ⟨h1.1.mpr (by decide), h2.2.2 rfl⟩

/-- C9: when the info command is invoked with a non-None password_file
argument, the program takes no action at all for that command; only the branch
where the password file is None reads a password and displays results
(cmdline.py lines 162-174 have no else branch). -/
theorem c9_password_file_branch_dead (f : List Char) (isatty : Bool)
    (prompted stdin_input : List Char) :
    info_command (some f) isatty prompted stdin_input = none ∧
    ∃ pw, info_command none isatty prompted stdin_input = some pw := by
  exact ⟨rfl, _, rfl⟩

/-- C10: when the info command reads the password from piped (non-tty) stdin,
exactly one trailing newline is stripped, and only if the input ends with a
newline; all other characters, including earlier newlines, are preserved
(cmdline.py lines 164-171). -/
theorem c10_strip_single_trailing_newline (prompted s : List Char) :
    info_command none false prompted s = some (strip_trailing s) ∧
    (s.getLast? = some newlineChar → strip_trailing s ++ [newlineChar] = s) ∧
    (s.getLast? ≠ some newlineChar → strip_trailing s = s) := by
  refine ⟨rfl, fun h => ?_, fun h => ?_⟩
  · rw [strip_trailing, if_pos h]
    rcases List.eq_nil_or_concat s with rfl | ⟨l, a, rfl⟩
    · simp at h
    · rw [List.concat_eq_append] at h ⊢
      rw [List.getLast?_concat] at h
      injection h with h
      subst h
      simp
  · rw [strip_trailing, if_neg h]

theorem c10_strip_single_trailing_newline_witness :
    strip_trailing [Char.ofNat 97, newlineChar, newlineChar] ++ [newlineChar] =
      [Char.ofNat 97, newlineChar, newlineChar] ∧
    strip_trailing [Char.ofNat 97, Char.ofNat 98] = [Char.ofNat 97, Char.ofNat 98] := by
  refine ⟨?_, ?_⟩
  · exact (c10_strip_single_trailing_newline []
      [Char.ofNat 97, newlineChar, newlineChar]).2.1 (by decide)
  · exact (c10_strip_single_trailing_newline []
      [Char.ofNat 97, Char.ofNat 98]).2.2 (by decide)

lemma getD_mod_mem {α : Type} (l : List α) (i : ℕ) (d : α) (h : l ≠ []) :
    l.getD (i % l.length) d ∈ l := by
  have hlen : 0 < l.length := List.length_pos.mpr h
  have hlt : i % l.length < l.length := Nat.mod_lt _ hlen
  rw [List.getD_eq_getElem l d hlt]
  exact List.getElem_mem hlt

lemma pickChars_length (alphabet : List Char) (n : ℕ) (pick : ℕ → ℕ) :
    (pickChars alphabet n pick).length = n := by
  simp [pickChars]

lemma pickChars_mem (alphabet : List Char) (n : ℕ) (pick : ℕ → ℕ)
    (h : alphabet ≠ []) : ∀ ch ∈ pickChars alphabet n pick, ch ∈ alphabet := by
  intro ch hch
  rcases List.mem_map.mp hch with ⟨i, _, rfl⟩
  exact getD_mod_mem alphabet (pick i) _ h

lemma pickWords_length (ws : List (List Char)) (n : ℕ) (pick : ℕ → ℕ) :
    (pickWords ws n pick).length = n := by
  simp [pickWords]

lemma pickWords_mem (ws : List (List Char)) (n : ℕ) (pick : ℕ → ℕ)
    (h : ws ≠ []) : ∀ t ∈ pickWords ws n pick, t ∈ ws := by
  intro t ht
  rcases List.mem_map.mp ht with ⟨i, _, rfl⟩
  exact getD_mod_mem ws (pick i) _ h

/-- C4: word-mode generation with a nonempty dictionary and an explicit word
count W returns exactly W tokens joined by the configured separator, each
token present verbatim in the dictionary. -/
theorem c4_word_mode_shape (ws : List (List Char)) (sep : Char) (W : ℕ)
    (min_entropy : Option ℕ) (pick : ℕ → ℕ) (h : ws ≠ []) :
    ∃ tokens : List (List Char),
      tokens.length = W ∧ (∀ t ∈ tokens, t ∈ ws) ∧
      (generate_password_words ws sep (some W) min_entropy pick).1 =
        Except.ok (joinSep sep tokens) := by
  refine ⟨pickWords ws W pick, pickWords_length ws W pick,
    pickWords_mem ws W pick h, ?_⟩
  have hlen : ¬ ws.length = 0 := by
    simpa [List.length_eq_zero] using h
  simp [generate_password_words, hlen]

theorem c4_word_mode_shape_witness :
    ∃ tokens : List (List Char),
      tokens.length = 2 ∧ (∀ t ∈ tokens, t ∈ [[Char.ofNat 97]]) ∧
      (generate_password_words [[Char.ofNat 97]] PASSWORD_SEPARATOR (some 2) none
        (fun _ => 0)).1 = Except.ok (joinSep PASSWORD_SEPARATOR tokens) :=
  c4_word_mode_shape [[Char.ofNat 97]] PASSWORD_SEPARATOR 2 none (fun _ => 0)
    (by decide)

lemma generate_password_chars_error_draws (alphabet : List Char)
    (length min_entropy : Option ℕ) (pick : ℕ → ℕ) (err : GenError) (n : ℕ)
    (h : generate_password_chars alphabet length min_entropy pick =
      (Except.error err, n)) : n = 0 := by
  by_cases h0 : alphabet.length = 0
  · rw [generate_password_chars.eq_def, if_pos h0] at h
    exact (congrArg Prod.snd h.symm)
  · rw [generate_password_chars.eq_def, if_neg h0] at h
    cases length with
    | some L => simp at h
    | none =>
      cases min_entropy with
      | some E =>
        dsimp only at h
        by_cases h1 : alphabet.length = 1
        · rw [if_pos h1] at h
          exact (congrArg Prod.snd h.symm)
        · rw [if_neg h1] at h
          simp at h
      | none => simp at h

lemma generate_password_words_error_draws (ws : List (List Char)) (sep : Char)
    (word_count min_entropy : Option ℕ) (pick : ℕ → ℕ) (err : GenError) (n : ℕ)
    (h : generate_password_words ws sep word_count min_entropy pick =
      (Except.error err, n)) : n = 0 := by
  by_cases h0 : ws.length = 0
  · rw [generate_password_words.eq_def, if_pos h0] at h
    exact (congrArg Prod.snd h.symm)
  · rw [generate_password_words.eq_def, if_neg h0] at h
    cases word_count with
    | some W => simp at h
    | none =>
      cases min_entropy with
      | some E =>
        dsimp only at h
        by_cases h1 : ws.length = 1
        · rw [if_pos h1] at h
          exact (congrArg Prod.snd h.symm)
        · rw [if_neg h1] at h
          simp at h
      | none => simp at h

/-- C6: generation fails with invalidRequest when dictionary mode has an empty
dictionary, when the resolved alphabet is empty, or when a minimum entropy
target is to be sized over an alphabet or dictionary of size 1; every failing
call consumes zero random draws and carries no partial password (the error
value replaces the password). -/
theorem c6_invalid_request (alphabet : List Char) (ws : List (List Char))
    (sep : Char) (length word_count min_entropy : Option ℕ) (E : ℕ)
    (pick : ℕ → ℕ) :
    (ws = [] → generate_password_words ws sep word_count min_entropy pick =
      (Except.error GenError.invalidRequest, 0)) ∧
    (alphabet = [] → generate_password_chars alphabet length min_entropy pick =
      (Except.error GenError.invalidRequest, 0)) ∧
    (alphabet.length = 1 → generate_password_chars alphabet none (some E) pick =
      (Except.error GenError.invalidRequest, 0)) ∧
    (ws.length = 1 → generate_password_words ws sep none (some E) pick =
      (Except.error GenError.invalidRequest, 0)) ∧
    (∀ err n, generate_password_chars alphabet length min_entropy pick =
      (Except.error err, n) → n = 0) ∧
    (∀ err n, generate_password_words ws sep word_count min_entropy pick =
      (Except.error err, n) → n = 0) := by
  refine ⟨?_, ?_, ?_, ?_, ?_, ?_⟩
  · rintro rfl
    simp [generate_password_words]
  · rintro rfl
    simp [generate_password_chars]
  · intro h1
    simp [generate_password_chars, h1]
  · intro h1
    simp [generate_password_words, h1]
  · exact fun err n h => generate_password_chars_error_draws _ _ _ _ _ _ h
  · exact fun err n h => generate_password_words_error_draws _ _ _ _ _ _ _ h

theorem c6_invalid_request_witness :
    generate_password_words [] PASSWORD_SEPARATOR (some 3) none (fun _ => 0) =
      (Except.error GenError.invalidRequest, 0) ∧
    generate_password_chars [] (some 3) none (fun _ => 0) =
      (Except.error GenError.invalidRequest, 0) ∧
    generate_password_chars [Char.ofNat 97] none (some 5) (fun _ => 0) =
      (Except.error GenError.invalidRequest, 0) ∧
    generate_password_words [[Char.ofNat 97]] PASSWORD_SEPARATOR none (some 5)
      (fun _ => 0) = (Except.error GenError.invalidRequest, 0) := by
  have h := c6_invalid_request [] [] PASSWORD_SEPARATOR (some 3) (some 3) none 5
    (fun _ => 0)
  have h2 := c6_invalid_request [Char.ofNat 97] [[Char.ofNat 97]]
    PASSWORD_SEPARATOR none none none 5 (fun _ => 0)
  exact ⟨h.1 rfl, h.2.1 rfl, h2.2.2.1 (by decide), h2.2.2.2.1 (by decide)⟩

/-- C8: when both an explicit length (or word count) and a minimum entropy
target are supplied, the explicit length wins: the minimum entropy parameter
is ignored and the output has exactly the explicit length or word count. -/
theorem c8_explicit_length_wins (alphabet : List Char) (ws : List (List Char))
    (sep : Char) (L W E : ℕ) (pick : ℕ → ℕ) :
    generate_password_chars alphabet (some L) (some E) pick =
      generate_password_chars alphabet (some L) none pick ∧
    generate_password_words ws sep (some W) (some E) pick =
      generate_password_words ws sep (some W) none pick ∧
    (alphabet ≠ [] → ∃ p, (generate_password_chars alphabet (some L) (some E) pick).1 =
      Except.ok p ∧ p.length = L) ∧
    (ws ≠ [] → ∃ tokens : List (List Char),
      (generate_password_words ws sep (some W) (some E) pick).1 =
        Except.ok (joinSep sep tokens) ∧ tokens.length = W) := by
  refine ⟨rfl, rfl, ?_, ?_⟩
  · intro h
    have hlen : ¬ alphabet.length = 0 := by
      simpa [List.length_eq_zero] using h
    exact ⟨pickChars alphabet L pick, by simp [generate_password_chars, hlen],
      pickChars_length alphabet L pick⟩
  · intro h
    have hlen : ¬ ws.length = 0 := by
      simpa [List.length_eq_zero] using h
    exact ⟨pickWords ws W pick, by simp [generate_password_words, hlen],
      pickWords_length ws W pick⟩

theorem c8_explicit_length_wins_witness :
    (∃ p, (generate_password_chars [Char.ofNat 97] (some 3) (some 99)
      (fun _ => 0)).1 = Except.ok p ∧ p.length = 3) ∧
    (∃ tokens : List (List Char),
      (generate_password_words [[Char.ofNat 97]] PASSWORD_SEPARATOR (some 2)
        (some 99) (fun _ => 0)).1 =
          Except.ok (joinSep PASSWORD_SEPARATOR tokens) ∧ tokens.length = 2) := by
  have h := c8_explicit_length_wins [Char.ofNat 97] [[Char.ofNat 97]]
    PASSWORD_SEPARATOR 3 2 99 (fun _ => 0)
  exact ⟨h.2.2.1 (by decide), h.2.2.2 (by decide)⟩

lemma logb_two_pos_of_two_le (A : ℕ) (hA : 2 ≤ A) : 0 < Real.logb 2 (A : ℝ) :=
  Real.logb_pos one_lt_two (by exact_mod_cast lt_of_lt_of_le one_lt_two hA)

/-- Bridge between the real entropy inequality and exact natural arithmetic:
`E ≤ L * log2 A` iff `2 ^ E ≤ A ^ L`. -/
lemma le_mul_logb_iff_pow_le (E A L : ℕ) (hA : 2 ≤ A) :
    (E : ℝ) ≤ (L : ℝ) * Real.logb 2 (A : ℝ) ↔ 2 ^ E ≤ A ^ L := by
  have hA0 : (0 : ℝ) < (A : ℝ) := by exact_mod_cast lt_of_lt_of_le Nat.zero_lt_two hA
  have hAL : (0 : ℝ) < (A : ℝ) ^ L := pow_pos hA0 L
  rw [← Real.logb_pow, Real.le_logb_iff_rpow_le one_lt_two hAL, Real.rpow_natCast]
  constructor
  · intro h
    exact_mod_cast h
  · intro h
    exact_mod_cast h

/-- `required_units` meets the entropy target and is minimal for it. -/
lemma required_units_spec (E A : ℕ) (hA : 2 ≤ A) :
    (E : ℝ) ≤ (required_units E A : ℝ) * Real.logb 2 (A : ℝ) ∧
    ∀ L : ℕ, (E : ℝ) ≤ (L : ℝ) * Real.logb 2 (A : ℝ) → required_units E A ≤ L := by
  constructor
  · rw [le_mul_logb_iff_pow_le E A _ hA]
    exact Nat.le_pow_clog hA _
  · intro L hL
    rw [le_mul_logb_iff_pow_le E A L hA] at hL
    exact (Nat.le_pow_iff_clog_le hA).mp hL

/-- The entropy of a `required_units`-sized password stays strictly below
`E + log2 A`. -/
lemma required_units_upper (E A : ℕ) (hA : 2 ≤ A) :
    (required_units E A : ℝ) * Real.logb 2 (A : ℝ) < (E : ℝ) + Real.logb 2 (A : ℝ) := by
  have hlog := logb_two_pos_of_two_le A hA
  rcases Nat.eq_zero_or_pos (required_units E A) with h0 | hpos
  · rw [h0]
    have hE : (0 : ℝ) ≤ (E : ℝ) := Nat.cast_nonneg E
    simpa using by linarith
  · have hnot : ¬ ((E : ℝ) ≤ ((required_units E A - 1 : ℕ) : ℝ) * Real.logb 2 (A : ℝ)) := by
      rw [le_mul_logb_iff_pow_le E A _ hA]
      intro hcon
      have hle := (Nat.le_pow_iff_clog_le hA).mp hcon
      simp only [required_units] at hle hpos
      omega
    push_neg at hnot
    have hcast : ((required_units E A - 1 : ℕ) : ℝ) = (required_units E A : ℝ) - 1 := by
      have h1 : 1 ≤ required_units E A := hpos
      push_cast [h1]
      ring
    rw [hcast, sub_one_mul] at hnot
    linarith

/-- `required_units` coincides with the spec's real ceiling formula. -/
lemma required_units_eq_ceil (E A : ℕ) (hA : 2 ≤ A) :
    required_units E A = ⌈(E : ℝ) / Real.logb 2 (A : ℝ)⌉₊ := by
  have hlog := logb_two_pos_of_two_le A hA
  apply le_antisymm
  · rw [required_units, ← Nat.le_pow_iff_clog_le hA,
      ← le_mul_logb_iff_pow_le E A _ hA]
    calc (E : ℝ) = ((E : ℝ) / Real.logb 2 (A : ℝ)) * Real.logb 2 (A : ℝ) := by
          field_simp
    _ ≤ (⌈(E : ℝ) / Real.logb 2 (A : ℝ)⌉₊ : ℝ) * Real.logb 2 (A : ℝ) :=
          mul_le_mul_of_nonneg_right (Nat.le_ceil _) hlog.le
  · apply Nat.ceil_le.mpr
    rw [div_le_iff₀ hlog]
    exact (required_units_spec E A hA).1

lemma charsetMembers_two_le (c : Charset) : 2 ≤ (charsetMembers c).length := by
  cases c <;> decide

/-- C3: for a minimum entropy target E and a character-mode alphabet of size
A ≥ 2 (every built-in class), the generated password has length
`ceil(E / log2 A)`, the minimal length meeting the target, and estimating it
under the same hypothesis yields entropy at least E and strictly less than
`E + log2 A`. -/
theorem c3_min_entropy_round_trip (E : ℕ) (c : Charset) (pick : ℕ → ℕ) :
    2 ≤ (charsetMembers c).length ∧
    ∃ p : List Char,
      (generate_password_chars (charsetMembers c) none (some E) pick).1 =
        Except.ok p ∧
      p.length = required_units E ((charsetMembers c).length) ∧
      p.length = ⌈(E : ℝ) / Real.logb 2 (((charsetMembers c).length : ℕ) : ℝ)⌉₊ ∧
      (∀ L : ℕ, (E : ℝ) ≤ charset_entropy ((charsetMembers c).length) L →
        p.length ≤ L) ∧
      (HypId.charset c, charset_entropy ((charsetMembers c).length) p.length) ∈
        calculate_entropy p none ∧
      (E : ℝ) ≤ charset_entropy ((charsetMembers c).length) p.length ∧
      charset_entropy ((charsetMembers c).length) p.length <
        (E : ℝ) + Real.logb 2 (((charsetMembers c).length : ℕ) : ℝ) := by
  set A := (charsetMembers c).length with hAdef
  have hA : 2 ≤ A := charsetMembers_two_le c
  have hne : charsetMembers c ≠ [] := by
    intro hnil
    rw [hnil] at hAdef
    simp [hAdef] at hA
  have h0 : ¬ A = 0 := by omega
  have h1 : ¬ A = 1 := by omega
  refine ⟨hA, pickChars (charsetMembers c) (required_units E A) pick, ?_, ?_, ?_, ?_, ?_, ?_, ?_⟩
  · rw [generate_password_chars.eq_def, ← hAdef, if_neg h0]
    dsimp only
    rw [if_neg h1]
  · exact pickChars_length _ _ _
  · rw [pickChars_length]
    exact required_units_eq_ceil E A hA
  · intro L hL
    rw [pickChars_length]
    exact (required_units_spec E A hA).2 L hL
  · apply (mem_calculate_entropy_charset _ none c _).mpr
    refine ⟨?_, rfl⟩
    apply (charsetIncluded_iff _ c).mpr
    exact pickChars_mem _ _ _ hne
  · rw [charset_entropy, pickChars_length]
    exact (required_units_spec E A hA).1
  · rw [charset_entropy, pickChars_length]
    exact required_units_upper E A hA

theorem c3_min_entropy_round_trip_witness :
    ∃ p : List Char,
      (generate_password_chars (charsetMembers Charset.digits) none (some 5)
        (fun _ => 0)).1 = Except.ok p ∧
      p.length = required_units 5 ((charsetMembers Charset.digits).length) := by
  obtain ⟨-, p, h1, h2, -, -, -, -, -⟩ :=
    c3_min_entropy_round_trip 5 Charset.digits (fun _ => 0)
  exact ⟨p, h1, h2⟩
